import Mathlib

/-!
Verification of the `testcase` hierarchical test-specification engine.

The Go sources define a tree of scopes (`context` structs linked by `parent`
pointers), a user-facing `Spec` builder (`Before`/`After`/`Around`/`Let`/
`LetValue`/`Parallel`/`Context`/`Test` and aliases), and a test-case runner
`runTestCase`.  Values stored in test variables are Go `interface{}` values;
we keep them as a type parameter `V`.

The per-case `T` object (its `setup`, `teardown` and variable-resolution
methods) is not part of the sources at hand; those pieces are modelled from
the specification document (each such definition says so in its doc comment).
Everything else is translated directly from the Go source.
-/

/-- A hook block, Go's `hookBlock = func(*T) func()`: a setup action that
returns a teardown action.  `Before`/`After`/`Around` all reduce to this shape
in the source.  For trace-based reasoning a hook carries an identifier, and
flags saying whether its setup part or its returned teardown part panics. -/
structure HookM where
  hid : Nat
  setupPanics : Bool
  teardownPanics : Bool
deriving DecidableEq, Repr

/-- The state of one scope node, translated from the Go `context` struct
(`context.go`): a variable table, an ordered hook list, the `parallel` and
`immutable` flags and a description.  The `parent` pointer is represented
separately by the `Context` inductive below.  Go's `vars.defs` is a
`map[string]func(*T) interface{}`; a factory's only observable effects here
are being invoked and producing its value, so the table maps a name directly
to the value its factory produces (invocations are logged by the resolver). -/
structure Frame (V : Type) where
  vars : String → Option V
  hooks : List HookM
  parallel : Bool
  immutable : Bool
  description : String

/-- The Go `context` with its `parent` pointer: `root` is a context whose
parent is `nil`, `child p f` is a context with frame `f` and parent `p`
(as built by `newSubSpec`, which sets `subCTX.parent = spec.ctx`). -/
inductive Context (V : Type) where
  | root (frame : Frame V)
  | child (parent : Context V) (frame : Frame V)

/-- Go `newContext()`: empty hooks, empty variable table, not parallel,
not immutable. -/
def newContext {V : Type} : Frame V :=
  { vars := fun _ => none
    hooks := []
    parallel := false
    immutable := false
    description := "" }

/-- Go `context.allLinkListElement`: walk the parent chain collecting
contexts, prepending at each step, so the result is root-first,
leaf-last. -/
def allLinkListElement {V : Type} : Context V → List (Frame V)
  | .root f => [f]
  | .child p f => allLinkListElement p ++ [f]

/-- Go `context.isParallel`: true iff some context on the root-to-leaf
chain has its `parallel` flag set. -/
def isParallel {V : Type} (c : Context V) : Bool :=
  (allLinkListElement c).any fun ctx => ctx.parallel

/-- Go constant `hookWarning` (`context.go`). -/
def hookWarning : String :=
  "you cannot create spec hooks after you used describe/when/and/then,\nunless you create a new context with the previously mentioned calls"

/-- Go constant `parallelWarn`. -/
def parallelWarn : String :=
  "you cannot use #Parallel after you already used when/and/then prior to calling Parallel"

/-- Go constant `varWarning`. -/
def varWarning : String :=
  "you cannot use let after a block is closed by a describe/when/and/then only before or within"

/-- Go `context.addHook`: panics with `hookWarning` when the context is
immutable, otherwise appends the hook.  A Go panic is modelled as
`Except.error` carrying the panic message. -/
def addHook {V : Type} (c : Frame V) (h : HookM) : Except String (Frame V) :=
  if c.immutable then .error hookWarning
  else .ok { c with hooks := c.hooks ++ [h] }

/-- Go `context.let`: insert/overwrite the variable definition.  Note the
source has no immutability check here; the check lives in `Spec.Let`. -/
def letVar {V : Type} (c : Frame V) (varName : String) (v : V) : Frame V :=
  { c with vars := fun m => if m = varName then some v else c.vars m }

/-- Go `Spec.Parallel`: panics with `parallelWarn` when the scope is
immutable, otherwise sets the `parallel` flag. -/
def specParallel {V : Type} (c : Frame V) : Except String (Frame V) :=
  if c.immutable then .error parallelWarn
  else .ok { c with parallel := true }

/-- Go `Spec.Let`: panics with `varWarning` when the scope is immutable,
otherwise delegates to `context.let`. -/
def specLet {V : Type} (c : Frame V) (varName : String) (v : V) :
    Except String (Frame V) :=
  if c.immutable then .error varWarning
  else .ok (letVar c varName v)

/-- Go `Spec.NoSideEffect` (alias file): its body is exactly
`spec.Parallel()`. -/
def noSideEffect {V : Type} (c : Frame V) : Except String (Frame V) :=
  specParallel c

/-- Go `Spec.newSubSpec`: marks the current context immutable, then
allocates a fresh child context whose parent is the (now immutable)
current context and whose description is `desc`.  Returns the updated
parent frame and the child frame. -/
def newSubSpec {V : Type} (c : Frame V) (desc : String) : Frame V × Frame V :=
  ({ c with immutable := true }, { (newContext : Frame V) with description := desc })

/-- Go `Spec.Context`: runs the user block on `newSubSpec desc`; the state
effect on the current scope is exactly that of `newSubSpec`. -/
def contextOpen {V : Type} (c : Frame V) (desc : String) : Frame V × Frame V :=
  newSubSpec c desc

/-- Go `Spec.Describe`: `Context` with the description prefixed by
`describe `. -/
def describeOpen {V : Type} (c : Frame V) (topic : String) : Frame V × Frame V :=
  contextOpen c ("describe" ++ " " ++ topic)

/-- Go `Spec.When`: `Context` with the description prefixed by `when `. -/
def whenOpen {V : Type} (c : Frame V) (desc : String) : Frame V × Frame V :=
  contextOpen c ("when" ++ " " ++ desc)

/-- Go `Spec.And`: `Context` with the description prefixed by `and `. -/
def andOpen {V : Type} (c : Frame V) (desc : String) : Frame V × Frame V :=
  contextOpen c ("and" ++ " " ++ desc)

/-- Go `Spec.Test`: creates a sub-spec via `newSubSpec desc` and runs it as
a test case; its state effect on the current scope is that of
`newSubSpec`. -/
def testOpen {V : Type} (c : Frame V) (desc : String) : Frame V × Frame V :=
  newSubSpec c desc

/-- Go `reflect.Kind`: the kind of a runtime value, as used by
`LetValue`'s precondition check. -/
inductive GoKind where
  | Invalid | Bool | Int | Int8 | Int16 | Int32 | Int64
  | Uint | Uint8 | Uint16 | Uint32 | Uint64 | Uintptr
  | Float32 | Float64 | Complex64 | Complex128
  | Array | Chan | Func | Interface | Map | Ptr | Slice
  | String | Struct | UnsafePointer
deriving DecidableEq, Repr

/-- Go `acceptedConstKind` as membership in the source's map literal:
exactly `String`, `Bool`, the signed and unsigned integer kinds, the float
kinds and the complex kinds. -/
def acceptedConstKind (k : GoKind) : Bool :=
  match k with
  | .String | .Bool
  | .Int | .Int8 | .Int16 | .Int32 | .Int64
  | .Uint | .Uint8 | .Uint16 | .Uint32 | .Uint64
  | .Float32 | .Float64 | .Complex64 | .Complex128 => true
  | _ => false

/-- Go constant `panicMessageForLetValue` (the `%T` format verb left as
written in the source template). -/
def panicMessageForLetValue : String :=
  "%T literal can't be used with #LetValue \nas the current implementation can't guarantee that the mutations on the value will not leak out to other tests,\nplease use the #Let memorization helper for now"

/-- Go `Spec.LetValue`: first checks that the kind of `value` is in
`acceptedConstKind`, panicking otherwise (before any immutability check);
then delegates to `Spec.Let` with a factory that returns a copy of the
value (`v := value; return v`, pure here, so the constant value itself). -/
def letValue {V : Type} (c : Frame V) (varName : String) (k : GoKind) (value : V) :
    Except String (Frame V) :=
  if acceptedConstKind k then specLet c varName value
  else .error panicMessageForLetValue

/-- Modelled from the spec: the chain walk of `VariableResolver.Resolve`
(the `T`/`variables` resolution code is not among the sources, only its
per-scope tables from `context.go`): walk from the leaf toward the root and
return the first context whose variable table contains the name; `none`
models the fatal UndefinedVariable condition. -/
def lookupVar {V : Type} : Context V → String → Option V
  | .root f, n => f.vars n
  | .child p f, n =>
    match f.vars n with
    | some v => some v
    | none => lookupVar p n

/-- Modelled from the spec: the state of one `VariableResolver`, the
per-test-case-execution cache.  `cache` maps already-resolved names to their
computed values; `log` records, in order, the names whose factory has been
invoked during this execution (the observable "factory ran" events). -/
structure RState (V : Type) where
  cache : List (String × V)
  log : List String
deriving DecidableEq, Repr

/-- Modelled from the spec: a fresh `VariableResolver` as created at the
start of one test-case execution: empty cache, no factory invocations. -/
def freshR {V : Type} : RState V := ⟨[], []⟩

/-- Association-list lookup used by the resolver cache. -/
def lookupCache {V : Type} : List (String × V) → String → Option V
  | [], _ => none
  | (k, v) :: rest, n => if k = n then some v else lookupCache rest n

/-- Modelled from the spec: `VariableResolver.Resolve`.  A cached name is
answered from the cache without touching any factory; otherwise the nearest
definition on the leaf-to-root chain is located, its factory invoked (logged)
and the result stored.  An undefined name is the fatal UndefinedVariable
case, modelled as `none` with the state unchanged. -/
def resolveVar {V : Type} (c : Context V) (n : String) (s : RState V) :
    Option V × RState V :=
  match lookupCache s.cache n with
  | some v => (some v, s)
  | none =>
    match lookupVar c n with
    | some v => (some v, ⟨(n, v) :: s.cache, s.log ++ [n]⟩)
    | none => (none, s)

/-- A sequence of variable reads performed by hook/body code within one
test-case execution, threaded through the resolver state. -/
def resolveMany {V : Type} (c : Context V) : List String → RState V → RState V
  | [], s => s
  | n :: ns, s => resolveMany c ns (resolveVar c n s).2

/-- Modelled from the spec: `HookChain.CollectHooks` — concatenate each
chain node's hooks in root-to-leaf order (the `T.setup` code consuming
`allLinkListElement` is not among the sources); within one node the hook
list is the append-ordered list built by `context.addHook`. -/
def collectHooks {V : Type} : Context V → List HookM
  | .root f => f.hooks
  | .child p f => collectHooks p ++ f.hooks

/-- Observable events of one test-case execution: a hook's setup part ran,
the user test body ran, a pushed teardown action ran. -/
inductive Ev where
  | setup (i : Nat)
  | body
  | teardown (i : Nat)
deriving DecidableEq, Repr

/-- Modelled from the spec: the setup phase of `T.setup` — run each hook
block in order, pushing each returned teardown action onto the teardown
stack (returned here in push order).  A hook whose setup part panics stops
the phase; its teardown action is never returned, so never pushed.
Result: (trace of setup events, teardown stack in push order, panicked?). -/
def runSetups : List HookM → List Ev × List HookM × Bool
  | [] => ([], [], false)
  | h :: hs =>
    if h.setupPanics then ([.setup h.hid], [], true)
    else
      let rest := runSetups hs
      (.setup h.hid :: rest.1, h :: rest.2.1, rest.2.2)

/-- Modelled from the spec: `T.teardown` — pop and run every pushed
teardown action in reverse push order; a failing teardown does not stop
the remaining ones from running. -/
def runTeardowns (tds : List HookM) : List Ev :=
  tds.reverse.map fun h => Ev.teardown h.hid

/-- The outcome of one test-case run: the event trace, whether the case
requested parallel execution from the host runner, and whether a panic
propagates out of the run. -/
structure RunResult where
  trace : List Ev
  parallelRequested : Bool
  panicked : Bool
deriving DecidableEq, Repr

/-- Go `Spec.runTestCase`, `*testing.T` branch, with `T.setup`/`T.teardown`
modelled from the spec: `defer teardown` is registered first, then setup
runs, then — only when setup completed — `t.Parallel()` is requested iff
`isParallel` holds on the chain, then the body runs (`bodyPanics` says
whether the user body terminates abnormally); the deferred teardowns run in
reverse push order in every case before any panic propagates. -/
def runTestCase {V : Type} (c : Context V) (bodyPanics : Bool) : RunResult :=
  let hooks := collectHooks c
  let s := runSetups hooks
  if s.2.2 then
    { trace := s.1 ++ runTeardowns s.2.1
      parallelRequested := false
      panicked := true }
  else
    { trace := s.1 ++ [Ev.body] ++ runTeardowns s.2.1
      parallelRequested := isParallel c
      panicked := bodyPanics || s.2.1.any fun h => h.teardownPanics }

/-- Go `Spec.runTestCase`, `*testing.B` branch, iteration structure: one
`T` (hence one `VariableResolver`) is created outside the `b.N` loop, setup
runs once, and the same `T` value is passed to every iteration of the body.
The body is abstracted to the list of variable names it resolves per
iteration; `benchStates c names n` is the resolver state after `n`
iterations (equivalently: the state the body observes on entering iteration
`n`, counted from 0). -/
def benchStates {V : Type} (c : Context V) (names : List String) : Nat → RState V
  | 0 => freshR
  | n + 1 => resolveMany c names (benchStates c names n)

/-- The numeric `reflect.Kind`s in the sense of the specification: signed
and unsigned fixed-width integers, floats and complex numbers.  `Uintptr`
is not numeric in this sense: it carries a pointer address, so it falls
under the reference-like kinds. -/
def isNumericKind (k : GoKind) : Bool :=
  match k with
  | .Int | .Int8 | .Int16 | .Int32 | .Int64
  | .Uint | .Uint8 | .Uint16 | .Uint32 | .Uint64
  | .Float32 | .Float64 | .Complex64 | .Complex128 => true
  | _ => false

/-- The acceptance predicate as the specification words it: a plain scalar
kind is a string, a boolean, or a numeric kind.  Stated independently of
the source's `acceptedConstKind` map so the two can be compared. -/
def isPlainScalarKind (k : GoKind) : Bool :=
  match k with
  | .String => true
  | .Bool => true
  | _ => isNumericKind k

/-- Resolver-state invariant: no name appears twice in the invocation log,
and every logged name is cached.  Holds for `freshR` and is preserved by
every resolution step. -/
def RInv {V : Type} (s : RState V) : Prop :=
  s.log.Nodup ∧ ∀ m ∈ s.log, (lookupCache s.cache m).isSome

/-- Fixture: a root frame carrying two hooks (ids 1, 2), as built by two
`addHook` calls. -/
def demoRootF : Frame Nat :=
  { (newContext : Frame Nat) with hooks := [⟨1, false, false⟩, ⟨2, false, false⟩] }

/-- Fixture: a leaf frame carrying one hook (id 3). -/
def demoLeafF : Frame Nat :=
  { (newContext : Frame Nat) with hooks := [⟨3, false, false⟩] }

/-- Fixture: a two-node chain, root with hooks 1, 2 and leaf with hook 3. -/
def demoChain : Context Nat := .child (.root demoRootF) demoLeafF

/-- Fixture: a root frame with the parallel flag set (as `specParallel`
leaves it). -/
def demoParRootF : Frame Nat := { (newContext : Frame Nat) with parallel := true }

/-- Fixture: a chain whose root is parallel and whose leaf is not. -/
def demoParChain : Context Nat := .child (.root demoParRootF) newContext

/-- Fixture: a two-node chain with the parallel flag set nowhere. -/
def demoSeqChain : Context Nat := .child (.root newContext) newContext

/-- Fixture: a root frame defining `x = 1` (via `context.let`). -/
def demoVarsRootF : Frame Nat := letVar (newContext : Frame Nat) "x" 1

/-- Fixture: a child frame redefining `x = 2`. -/
def demoShadowF : Frame Nat := letVar (newContext : Frame Nat) "x" 2

/-- Fixture: the child scope that redefines `x`. -/
def demoShadowCtx : Context Nat := .child (.root demoVarsRootF) demoShadowF

/-- Fixture: a sibling scope that does not redefine `x`. -/
def demoSiblingCtx : Context Nat := .child (.root demoVarsRootF) newContext

/-- Fixture: a one-node chain defining `x = 42`, used for the benchmark
iteration analysis. -/
def demoBenchCtx : Context Nat := .root (letVar (newContext : Frame Nat) "x" 42)

/-- When no hook's setup part panics, the setup phase emits one setup event
per hook in list order, pushes every hook's teardown in the same order, and
does not panic. -/
theorem runSetups_clean (hs : List HookM) (h : ∀ hk ∈ hs, hk.setupPanics = false) :
    runSetups hs = (hs.map fun hk => Ev.setup hk.hid, hs, false) := by
  induction hs with
  | nil => rfl
  | cons a t ih =>
    have ha := h a (List.mem_cons_self a t)
    have ht : ∀ hk ∈ t, hk.setupPanics = false :=
      fun hk hm => h hk (List.mem_cons_of_mem a hm)
    simp [runSetups, ha, ih ht]

/-- When the first panicking hook is `bad`, the setup phase emits the setup
events of the hooks before it and of `bad` itself, pushes only the
teardowns of the hooks before `bad`, and reports the panic. -/
theorem runSetups_stops_at_bad (pre : List HookM) (bad : HookM) (post : List HookM)
    (hp : ∀ hk ∈ pre, hk.setupPanics = false) (hb : bad.setupPanics = true) :
    runSetups (pre ++ bad :: post) =
      ((pre.map fun hk => Ev.setup hk.hid) ++ [Ev.setup bad.hid], pre, true) := by
  induction pre with
  | nil => simp [runSetups, hb]
  | cons a t ih =>
    have ha := hp a (List.mem_cons_self a t)
    have ht : ∀ hk ∈ t, hk.setupPanics = false :=
      fun hk hm => hp hk (List.mem_cons_of_mem a hm)
    simp [runSetups, ha, ih ht]

/-- C1: running a leaf test case executes the setup parts of the collected
hooks in root-to-leaf chain order (within one node, in the order the hooks
were added — `collectHooks` concatenates each chain node's append-ordered
hook list, root first), and executes the collected teardown actions in the
exact reverse of the setup order. -/
theorem setup_order_and_reverse_teardown {V : Type} (c : Context V)
    (h : ∀ hk ∈ collectHooks c, hk.setupPanics = false) :
    (runTestCase c false).trace =
      ((collectHooks c).map fun hk => Ev.setup hk.hid)
        ++ [Ev.body]
        ++ ((collectHooks c).reverse.map fun hk => Ev.teardown hk.hid)
    ∧ ∀ (p : Context V) (f : Frame V),
        collectHooks (.child p f) = collectHooks p ++ f.hooks := by
  constructor
  · simp [runTestCase, runSetups_clean _ h, runTeardowns]
  · intro p f
    rfl

/-- C1 witness: on the concrete two-node chain with hooks 1, 2 at the root
and hook 3 at the leaf, the trace is setups 1, 2, 3, then the body, then
teardowns 3, 2, 1. -/
theorem setup_order_and_reverse_teardown_witness :
    (runTestCase demoChain false).trace =
      [Ev.setup 1, Ev.setup 2, Ev.setup 3, Ev.body,
       Ev.teardown 3, Ev.teardown 2, Ev.teardown 1] := by
  rw [(setup_order_and_reverse_teardown demoChain (by decide)).1]
  rfl

/-- C6: when the test body terminates abnormally by panic, every teardown
action pushed before the abnormal termination still runs, in reverse push
order, before the panic propagates (`panicked = true`): with a clean setup
phase all collected teardowns run after the body; and when instead a hook's
setup part is the one that panics, the teardowns of exactly the hooks
pushed before it run, in reverse order, and the panic still propagates. -/
theorem teardowns_survive_panic {V : Type} (c : Context V) :
    ((∀ hk ∈ collectHooks c, hk.setupPanics = false) →
      (runTestCase c true).trace =
        ((collectHooks c).map fun hk => Ev.setup hk.hid)
          ++ [Ev.body]
          ++ ((collectHooks c).reverse.map fun hk => Ev.teardown hk.hid)
      ∧ (runTestCase c true).panicked = true)
    ∧ (∀ (pre : List HookM) (bad : HookM) (post : List HookM) (b : Bool),
        collectHooks c = pre ++ bad :: post →
        (∀ hk ∈ pre, hk.setupPanics = false) →
        bad.setupPanics = true →
        (runTestCase c b).trace =
          (pre.map fun hk => Ev.setup hk.hid)
            ++ [Ev.setup bad.hid]
            ++ (pre.reverse.map fun hk => Ev.teardown hk.hid)
        ∧ (runTestCase c b).panicked = true) := by
  constructor
  · intro h
    constructor
    · simp [runTestCase, runSetups_clean _ h, runTeardowns]
    · simp [runTestCase, runSetups_clean _ h]
  · intro pre bad post b hsplit hp hb
    constructor
    · simp [runTestCase, hsplit, runSetups_stops_at_bad pre bad post hp hb, runTeardowns]
    · simp [runTestCase, hsplit, runSetups_stops_at_bad pre bad post hp hb]

/-- C6 witness: on the two-node demo chain a panicking body still yields
all three teardowns in reverse order after the body event, and the panic
propagates. -/
theorem teardowns_survive_panic_witness :
    (runTestCase demoChain true).trace =
      [Ev.setup 1, Ev.setup 2, Ev.setup 3, Ev.body,
       Ev.teardown 3, Ev.teardown 2, Ev.teardown 1]
    ∧ (runTestCase demoChain true).panicked = true := by
  have h := (teardowns_survive_panic demoChain).1 (by decide)
  exact ⟨h.1.trans (by rfl), h.2⟩

/-- C5: a leaf test case requests parallel execution from the host runner
iff the parallel flag is set on at least one node of its root-to-leaf
ancestor chain (assuming the setup phase completes, since the request is
issued after setup). -/
theorem parallel_iff_flag_on_chain {V : Type} (c : Context V) (b : Bool)
    (h : ∀ hk ∈ collectHooks c, hk.setupPanics = false) :
    ((runTestCase c b).parallelRequested = true ↔
      ∃ f ∈ allLinkListElement c, f.parallel = true) := by
  have : (runTestCase c b).parallelRequested = isParallel c := by
    simp [runTestCase, runSetups_clean _ h]
  rw [this, isParallel, List.any_eq_true]

/-- C5 witness: the chain whose root set the parallel flag requests
parallel execution; the flagless chain does not. -/
theorem parallel_iff_flag_on_chain_witness :
    (runTestCase demoParChain false).parallelRequested = true
    ∧ (runTestCase demoSeqChain false).parallelRequested = false := by
  constructor
  · exact (parallel_iff_flag_on_chain demoParChain false (by decide)).mpr
      ⟨demoParRootF, by simp [demoParChain, allLinkListElement], by decide⟩
  · have h := (parallel_iff_flag_on_chain demoSeqChain false (by decide))
    by_contra hc
    rw [Bool.not_eq_false] at hc
    rcases h.mp hc with ⟨f, hf, hpar⟩
    simp [demoSeqChain, allLinkListElement] at hf
    subst hf
    simp [newContext] at hpar

/-- C2: every child-opening call (`Context`/`Describe`/`When`/`And`/`Test`)
goes through `newSubSpec`, which marks the parent scope immutable; on such
a scope any later `addHook`, `specParallel` (also via `noSideEffect`),
`specLet` or `letValue` call panics with the corresponding
immutability-violation message, while on a scope with no child yet
(`immutable = false`) the same calls succeed with the expected state
change. -/
theorem immutable_after_child_open {V : Type} (c : Frame V) (hk : HookM)
    (n : String) (v : V) (k : GoKind) (d : String) :
    (addHook (newSubSpec c d).1 hk = .error hookWarning
      ∧ specParallel (newSubSpec c d).1 = .error parallelWarn
      ∧ noSideEffect (newSubSpec c d).1 = .error parallelWarn
      ∧ specLet (newSubSpec c d).1 n v = .error varWarning
      ∧ (acceptedConstKind k = true →
          letValue (newSubSpec c d).1 n k v = .error varWarning))
    ∧ (c.immutable = false →
        addHook c hk = .ok { c with hooks := c.hooks ++ [hk] }
        ∧ specParallel c = .ok { c with parallel := true }
        ∧ specLet c n v = .ok (letVar c n v)
        ∧ (acceptedConstKind k = true → letValue c n k v = .ok (letVar c n v)))
    ∧ (contextOpen c d = newSubSpec c d
        ∧ describeOpen c d = newSubSpec c ("describe" ++ " " ++ d)
        ∧ whenOpen c d = newSubSpec c ("when" ++ " " ++ d)
        ∧ andOpen c d = newSubSpec c ("and" ++ " " ++ d)
        ∧ testOpen c d = newSubSpec c d
        ∧ (newSubSpec c d).1.immutable = true) := by
  refine ⟨⟨?_, ?_, ?_, ?_, ?_⟩, ?_, rfl, rfl, rfl, rfl, rfl, rfl⟩
  · simp [addHook, newSubSpec]
  · simp [specParallel, newSubSpec]
  · simp [noSideEffect, specParallel, newSubSpec]
  · simp [specLet, newSubSpec]
  · intro hacc
    simp [letValue, hacc, specLet, newSubSpec]
  · intro him
    refine ⟨?_, ?_, ?_, ?_⟩
    · simp [addHook, him]
    · simp [specParallel, him]
    · simp [specLet, him]
    · intro hacc
      simp [letValue, hacc, specLet, him]

/-- C2 witness: on a fresh root scope `addHook` and `specParallel` succeed;
after opening a child from it the same calls fail with the
immutability-violation panics. -/
theorem immutable_after_child_open_witness :
    addHook (newContext : Frame Nat) ⟨1, false, false⟩
        = .ok { (newContext : Frame Nat) with hooks := [⟨1, false, false⟩] }
    ∧ specParallel (newContext : Frame Nat)
        = .ok { (newContext : Frame Nat) with parallel := true }
    ∧ addHook (newSubSpec (newContext : Frame Nat) "d").1 ⟨1, false, false⟩
        = .error hookWarning
    ∧ specLet (newSubSpec (newContext : Frame Nat) "d").1 "x" 5
        = .error varWarning := by
  have h := immutable_after_child_open (newContext : Frame Nat)
    ⟨1, false, false⟩ "x" 5 GoKind.Int "d"
  have hm := h.2.1 rfl
  refine ⟨?_, hm.2.1, h.1.1, h.1.2.2.2.1⟩
  have := hm.1
  simpa [newContext] using this

/-- C10: `NoSideEffect` is observationally identical to `Parallel`: it is
the same function on scope state, producing the same parallel-flag change
on a mutable scope and the same immutability-violation panic on an
immutable one. -/
theorem noSideEffect_is_parallel {V : Type} (c : Frame V) :
    noSideEffect c = specParallel c
    ∧ (c.immutable = true → noSideEffect c = .error parallelWarn)
    ∧ (c.immutable = false → noSideEffect c = .ok { c with parallel := true }) := by
  refine ⟨rfl, ?_, ?_⟩
  · intro him
    simp [noSideEffect, specParallel, him]
  · intro him
    simp [noSideEffect, specParallel, him]

/-- C10 witness: on a fresh scope `noSideEffect` sets the parallel flag;
on a scope that has spawned a child it panics with `parallelWarn`. -/
theorem noSideEffect_is_parallel_witness :
    noSideEffect (newContext : Frame Nat)
        = .ok { (newContext : Frame Nat) with parallel := true }
    ∧ noSideEffect (newSubSpec (newContext : Frame Nat) "d").1
        = .error parallelWarn :=
  ⟨(noSideEffect_is_parallel (newContext : Frame Nat)).2.2 rfl,
   (noSideEffect_is_parallel (newSubSpec (newContext : Frame Nat) "d").1).2.1 rfl⟩

/-- C8: `letValue` accepts exactly the plain scalar kinds (strings,
booleans, numeric kinds — `acceptedConstKind` agrees pointwise with the
spec-side `isPlainScalarKind`); on a mutable scope an accepted value is
stored as a constant-factory definition of the value, and any other kind
panics with `panicMessageForLetValue` at construction time. -/
theorem letValue_accepts_plain_scalars {V : Type} (c : Frame V)
    (n : String) (k : GoKind) (v : V) :
    (acceptedConstKind k = isPlainScalarKind k)
    ∧ (c.immutable = false → acceptedConstKind k = true →
        letValue c n k v = .ok (letVar c n v))
    ∧ (acceptedConstKind k = false →
        letValue c n k v = .error panicMessageForLetValue) := by
  refine ⟨?_, ?_, ?_⟩
  · cases k <;> rfl
  · intro him hacc
    simp [letValue, hacc, specLet, him]
  · intro hacc
    simp [letValue, hacc]

/-- C8 witness: `LetValue` of an `Int` value succeeds on a fresh scope and
defines the constant; a `Slice` value is rejected with the fatal panic. -/
theorem letValue_accepts_plain_scalars_witness :
    letValue (newContext : Frame Nat) "n" GoKind.Int 42
        = .ok (letVar (newContext : Frame Nat) "n" 42)
    ∧ letValue (newContext : Frame Nat) "m" GoKind.Slice 0
        = .error panicMessageForLetValue :=
  ⟨(letValue_accepts_plain_scalars (newContext : Frame Nat) "n" GoKind.Int 42).2.1
      rfl rfl,
   (letValue_accepts_plain_scalars (newContext : Frame Nat) "m" GoKind.Slice 0).2.2
      rfl⟩

/-- One resolution step preserves the resolver invariant. -/
theorem rinv_resolveVar {V : Type} (c : Context V) (n : String) (s : RState V)
    (h : RInv s) : RInv (resolveVar c n s).2 := by
  unfold resolveVar
  cases hc : lookupCache s.cache n with
  | some v => exact h
  | none =>
    cases hl : lookupVar c n with
    | none => exact h
    | some v =>
      have hn : n ∉ s.log := by
        intro hm
        have := h.2 n hm
        rw [hc] at this
        simp at this
      constructor
      · simp only [List.nodup_append, List.nodup_cons, List.nodup_nil]
        refine ⟨h.1, by simp, ?_⟩
        intro x hx hx1
        simp at hx1
        subst hx1
        exact hn hx
      · intro m hm
        rcases List.mem_append.mp hm with hml | hmr
        · have hold := h.2 m hml
          by_cases e : n = m
          · simp [lookupCache, e]
          · simpa [lookupCache, e] using hold
        · simp at hmr
          subst hmr
          simp [lookupCache]

/-- A whole sequence of resolutions preserves the resolver invariant. -/
theorem rinv_resolveMany {V : Type} (c : Context V) (names : List String)
    (s : RState V) (h : RInv s) : RInv (resolveMany c names s) := by
  induction names generalizing s with
  | nil => exact h
  | cons n ns ih => exact ih _ (rinv_resolveVar c n s h)

/-- The fresh resolver satisfies the invariant. -/
theorem rinv_freshR {V : Type} : RInv (freshR : RState V) := by
  constructor
  · simp [freshR]
  · intro m hm
    simp [freshR] at hm

/-- C3: the first resolution of a name in one test-case execution invokes
the name's factory (logging the invocation) and stores the result; every
later resolution of the same name in the same execution answers from the
cache without touching the factory; consequently over any sequence of reads
starting from a fresh resolver, each variable's factory is invoked at most
once (the invocation log has no duplicates). -/
theorem resolver_memoizes {V : Type} (c : Context V) (n : String) (s : RState V) :
    (∀ v, lookupCache s.cache n = none → lookupVar c n = some v →
        resolveVar c n s = (some v, ⟨(n, v) :: s.cache, s.log ++ [n]⟩))
    ∧ (∀ v, lookupCache s.cache n = some v → resolveVar c n s = (some v, s))
    ∧ (∀ names : List String,
        (resolveMany c names (freshR : RState V)).log.Nodup) := by
  refine ⟨?_, ?_, ?_⟩
  · intro v hc hl
    simp [resolveVar, hc, hl]
  · intro v hc
    simp [resolveVar, hc]
  · intro names
    exact (rinv_resolveMany c names freshR rinv_freshR).1

/-- C3 witness: on a chain defining `x = 1`, resolving `x` from the fresh
state invokes the factory (caching the value and logging `x`), and
resolving `x` again from the resulting state returns the cached value with
the state unchanged. -/
theorem resolver_memoizes_witness :
    resolveVar demoShadowCtx "y" freshR = (none, freshR)
    ∧ resolveVar (Context.root demoVarsRootF) "x" freshR
        = (some 1, ⟨[("x", 1)], ["x"]⟩)
    ∧ resolveVar (Context.root demoVarsRootF) "x" ⟨[("x", 1)], ["x"]⟩
        = (some 1, ⟨[("x", 1)], ["x"]⟩) := by
  refine ⟨by decide, ?_, ?_⟩
  · exact (resolver_memoizes (Context.root demoVarsRootF) "x" freshR).1 1
      (by decide) (by decide)
  · exact (resolver_memoizes (Context.root demoVarsRootF) "x"
      ⟨[("x", 1)], ["x"]⟩).2.1 1 (by decide)

/-- C4: a descendant redefinition of a variable shadows the ancestor's for
itself and its own descendants that do not redefine it, while a sibling
scope without a redefinition still resolves the ancestor's value; the
shadowed ancestor definition is not deleted (resolution from scopes below a
non-redefining frame falls through to it). -/
theorem shadowing_resolution {V : Type} (p : Context V) (f g : Frame V)
    (n : String) (vD vA : V) :
    (f.vars n = some vD →
      (resolveVar (.child p f) n freshR).1 = some vD
      ∧ (g.vars n = none →
          (resolveVar (.child (.child p f) g) n freshR).1 = some vD))
    ∧ (lookupVar p n = some vA → g.vars n = none →
        (resolveVar (.child p g) n freshR).1 = some vA)
    ∧ (g.vars n = none → lookupVar (.child p g) n = lookupVar p n) := by
  refine ⟨?_, ?_, ?_⟩
  · intro hf
    constructor
    · simp [resolveVar, freshR, lookupCache, lookupVar, hf]
    · intro hg
      simp [resolveVar, freshR, lookupCache, lookupVar, hg, hf]
  · intro hp hg
    simp [resolveVar, freshR, lookupCache, lookupVar, hg, hp]
  · intro hg
    simp [lookupVar, hg]

/-- C4 witness: root defines `x = 1`, child redefines `x = 2`; resolving
`x` from the child yields `2`, from a grandchild without a redefinition
also `2`, and from a sibling that does not redefine it `1`. -/
theorem shadowing_resolution_witness :
    (resolveVar demoShadowCtx "x" freshR).1 = some 2
    ∧ (resolveVar (.child demoShadowCtx (newContext : Frame Nat)) "x" freshR).1
        = some 2
    ∧ (resolveVar demoSiblingCtx "x" freshR).1 = some 1 := by
  have h := shadowing_resolution (Context.root demoVarsRootF) demoShadowF
    (newContext : Frame Nat) "x" 2 1
  have hd := h.1 (by decide)
  exact ⟨hd.1, hd.2 rfl, h.2.1 (by decide) rfl⟩

/-- One resolution step never drops or changes a cached value. -/
theorem cache_mono_resolveVar {V : Type} (c : Context V) (x m : String)
    (v : V) (s : RState V) (h : lookupCache s.cache m = some v) :
    lookupCache (resolveVar c x s).2.cache m = some v := by
  unfold resolveVar
  cases hc : lookupCache s.cache x with
  | some w => exact h
  | none =>
    cases hl : lookupVar c x with
    | none => exact h
    | some w =>
      have hxm : ¬x = m := by
        intro e
        subst e
        rw [hc] at h
        exact Option.noConfusion h
      simpa [lookupCache, hxm] using h

/-- A sequence of resolutions never drops or changes a cached value. -/
theorem cache_mono_resolveMany {V : Type} (c : Context V) (names : List String)
    (m : String) (v : V) (s : RState V) (h : lookupCache s.cache m = some v) :
    lookupCache (resolveMany c names s).cache m = some v := by
  induction names generalizing s with
  | nil => exact h
  | cons x xs ih => exact ih _ (cache_mono_resolveVar c x m v s h)

/-- C7 counterexample: on the chain defining `x = 42` with a body that
reads `x` each iteration, the resolver state entering the second benchmark
iteration is `benchStates … 1`, which already caches the value memoized by
the first iteration — it is not a fresh `VariableResolver` — and the second
iteration leaves the state unchanged (answering from the cache instead of
re-invoking the factory), so the memoized value is observed across
iterations. -/
theorem bench_resolver_not_fresh :
    lookupCache (benchStates demoBenchCtx ["x"] 1).cache "x" = some 42
    ∧ benchStates demoBenchCtx ["x"] 1 ≠ (freshR : RState Nat)
    ∧ benchStates demoBenchCtx ["x"] 2 = benchStates demoBenchCtx ["x"] 1
    ∧ (benchStates demoBenchCtx ["x"] 2).log = ["x"] := by
  decide

/-- C7 amended: in the repeated-iteration (`*testing.B`) branch one `T`
(hence one `VariableResolver`) is created outside the iteration loop and
shared by every iteration, so a variable value memoized in one iteration IS
observed by all later iterations (cached values persist across iterations)
and a factory is invoked at most once across the whole benchmark run, not
once per iteration. -/
theorem bench_iterations_share_resolver {V : Type} (c : Context V)
    (names : List String) (n : Nat) :
    (benchStates c names n).log.Nodup
    ∧ (∀ m v, lookupCache (benchStates c names n).cache m = some v →
        lookupCache (benchStates c names (n + 1)).cache m = some v) := by
  constructor
  · have : RInv (benchStates c names n) := by
      induction n with
      | zero => exact rinv_freshR
      | succ k ih => exact rinv_resolveMany c names _ ih
    exact this.1
  · intro m v h
    exact cache_mono_resolveMany c names m v _ h

/-- C7 amended witness: after three iterations the invocation log is still
duplicate-free, and the value cached in the first iteration is still
observed entering the fourth. -/
theorem bench_iterations_share_resolver_witness :
    (benchStates demoBenchCtx ["x"] 3).log.Nodup
    ∧ lookupCache (benchStates demoBenchCtx ["x"] 4).cache "x" = some 42 :=
  ⟨(bench_iterations_share_resolver demoBenchCtx ["x"] 3).1,
   (bench_iterations_share_resolver demoBenchCtx ["x"] 3).2 "x" 42 (by decide)⟩
